import Mathlib

/-!
# Formal model of `getLearnerData` (src/script.js)

A shallow embedding of the learner-score aggregation routine.  Identifiers,
field names and the order of checks follow the JavaScript source
(`src/script.js`, lines 8–116).  Numbers (scores, points) are modelled as
rationals, dates as integer timestamps (the result of `Date` parsing), and the
`new Date()` captured at the start of the call is the explicit parameter `now`.
JavaScript `Map` objects and the plain-object `assignmentScores` are modelled
as insertion-ordered association lists with the `Map.set` / property-assignment
update rule (overwrite in place, else append).
-/

set_option autoImplicit false

namespace LearnerData

/-- Course record (`courseInfo`): only `id` is read by the routine. -/
structure Course where
  id : Int
deriving DecidableEq

/-- Assignment record.  `due_at` is the parsed timestamp of the due date. -/
structure Assignment where
  id : Int
  due_at : Int
  points_possible : ℚ
deriving DecidableEq

/-- The nested `submission` object: parsed `submitted_at` timestamp and raw score. -/
structure SubmissionDetail where
  submitted_at : Int
  score : ℚ
deriving DecidableEq

/-- A learner submission.  A `learner_id`/`assignment_id` of `0` models a
missing or falsy id (JS line 41 tests truthiness, and `0` is falsy); a missing
or falsy `submission` object is `none`. -/
structure Submission where
  learner_id : Int
  assignment_id : Int
  submission : Option SubmissionDetail
deriving DecidableEq

/-- Assignment group record. -/
structure AssignmentGroup where
  id : Int
  course_id : Int
  assignments : List Assignment
deriving DecidableEq

/-- Per-learner accumulator built during the pass (JS lines 51–56). -/
structure LearnerAcc where
  id : Int
  totalScore : ℚ
  totalPossible : ℚ
  assignmentScores : List (Int × ℚ)
deriving DecidableEq

/-- One output record: `{ id, avg, ...assignmentScores }` (JS lines 102–106);
the spread per-assignment percentages are kept as the `scores` field. -/
structure LearnerRecord where
  id : Int
  avg : ℚ
  scores : List (Int × ℚ)
deriving DecidableEq

/-- The errors the routine can raise. -/
inductive Err where
  | invalidInputType
  | groupMismatch
  | invalidAssignment (id : Int)
  | typeError
deriving DecidableEq

/-- Lookup in an insertion-ordered association list (JS `Map.get` /
object property read). -/
def mapGet {α : Type} : List (Int × α) → Int → Option α
  | [], _ => none
  | (k, v) :: rest, key => if k = key then some v else mapGet rest key

/-- Update in an insertion-ordered association list (JS `Map.set` / object
property write): overwrite in place when the key exists, else append. -/
def mapSet {α : Type} : List (Int × α) → Int → α → List (Int × α)
  | [], key, v => [(key, v)]
  | (k, w) :: rest, key, v =>
      if k = key then (key, v) :: rest else (k, w) :: mapSet rest key v

/-- The structural check of JS line 41:
`!submission.learner_id || !submission.assignment_id || !submission.submission`. -/
def isMalformed (s : Submission) : Bool :=
  s.learner_id == 0 || s.assignment_id == 0 || s.submission.isNone

/-- Fresh accumulator for a newly seen learner (JS lines 51–56). -/
def emptyAcc (lid : Int) : LearnerAcc :=
  { id := lid, totalScore := 0, totalPossible := 0, assignmentScores := [] }

/-- JS lines 50–57: add the empty accumulator when the learner is not yet in
the map. -/
def initIfAbsent (st : List (Int × LearnerAcc)) (lid : Int) : List (Int × LearnerAcc) :=
  if (mapGet st lid).isNone then mapSet st lid (emptyAcc lid) else st

/-- JS lines 72–77: the effective score after the late penalty.  A strictly
late submission loses a flat 10% of `points_possible`, floored at 0; an
on-time submission keeps its raw score. -/
def effectiveScore (submittedAt dueAt : Int) (rawScore pointsPossible : ℚ) : ℚ :=
  if submittedAt > dueAt then max 0 (rawScore - (1 / 10) * pointsPossible) else rawScore

/-- JS lines 80–95: duplicate resolution and totals update for one learner.
Line 83 reads `!learner.assignmentScores[assignmentId] || percentage > ...`:
an absent entry, and also a stored percentage of `0` (falsy!), passes the
first disjunct.  Line 87's truthiness test skips the subtraction of the old
contribution exactly when the stored percentage is `0`. -/
def updateLearner (aid : Int) (pp : ℚ) (score : ℚ) (learner : LearnerAcc) : LearnerAcc :=
  -- `score / pp` is JS line 80's `percentage`.
  match mapGet learner.assignmentScores aid with
  | none =>
      { id := learner.id
        totalScore := learner.totalScore + score
        totalPossible := learner.totalPossible + pp
        assignmentScores := mapSet learner.assignmentScores aid (score / pp) }
  | some p =>
      if p = 0 ∨ score / pp > p then
        if p = 0 then
          -- JS line 87: `if (learner.assignmentScores[assignmentId])` is falsy
          -- for 0, so the old contribution is NOT subtracted here.
          { id := learner.id
            totalScore := learner.totalScore + score
            totalPossible := learner.totalPossible + pp
            assignmentScores := mapSet learner.assignmentScores aid (score / pp) }
        else
          { id := learner.id
            totalScore := learner.totalScore - p * pp + score
            totalPossible := learner.totalPossible - pp + pp
            assignmentScores := mapSet learner.assignmentScores aid (score / pp) }
      else learner

/-- JS lines 39–96, one iteration of the submission loop.  Returns the new
learner map and the submissions reported by `console.warn` in this step. -/
def processSubmission (now : Int) (amap : List (Int × Assignment))
    (st : List (Int × LearnerAcc)) (s : Submission) :
    List (Int × LearnerAcc) × List Submission :=
  match s.submission with
  | none => (st, [s])
  | some d =>
    if s.learner_id = 0 ∨ s.assignment_id = 0 then (st, [s])
    else
      let lid := s.learner_id
      let st1 := initIfAbsent st lid
      let learner := (mapGet st lid).getD (emptyAcc lid)
      match mapGet amap s.assignment_id with
      | none => (st1, [])
      | some a =>
        if a.due_at > now then (st1, [])
        else if a.points_possible = 0 then (st1, [])
        else
          let score := effectiveScore d.submitted_at a.due_at d.score a.points_possible
          (mapSet st1 lid (updateLearner s.assignment_id a.points_possible score learner), [])

/-- The whole submission loop (JS lines 39–96), collecting warnings in order. -/
def processSubmissions (now : Int) (amap : List (Int × Assignment))
    (st : List (Int × LearnerAcc)) :
    List Submission → List (Int × LearnerAcc) × List Submission
  | [] => (st, [])
  | s :: rest =>
      let out := processSubmission now amap st s
      let res := processSubmissions now amap out.1 rest
      (res.1, out.2 ++ res.2)

/-- JS lines 26–33: build the assignment map, aborting on an invalid
`points_possible`. -/
def buildAssignmentMap : List Assignment → List (Int × Assignment) →
    Except Err (List (Int × Assignment))
  | [], m => .ok m
  | a :: rest, m =>
      if a.points_possible < 0 then .error (.invalidAssignment a.id)
      else buildAssignmentMap rest (mapSet m a.id a)

/-- JS lines 98–109: emit one record per learner whose `totalPossible` is
non-zero, in map insertion order. -/
def assembleResults : List (Int × LearnerAcc) → List LearnerRecord
  | [] => []
  | (_, d) :: rest =>
      if d.totalPossible = 0 then assembleResults rest
      else
        { id := d.id, avg := d.totalScore / d.totalPossible,
          scores := d.assignmentScores } :: assembleResults rest

/-- JS lines 16–111: the core routine on well-typed arguments, with the
wall-clock instant `now` (JS line 23) made explicit.  Returns the result list
together with the warned (skipped malformed) submissions, or the raised error. -/
def getLearnerData (now : Int) (c : Course) (g : AssignmentGroup)
    (subs : List Submission) : Except Err (List LearnerRecord × List Submission) :=
  if g.course_id ≠ c.id then .error .groupMismatch
  else
    match buildAssignmentMap g.assignments [] with
    | .error e => .error e
    | .ok amap =>
        let res := processSubmissions now amap [] subs
        .ok (assembleResults res.1, res.2)

/-- A dynamically-typed argument as the JS entry point sees it: a proper
structured record, the value `null` (for which `typeof` is `'object'` but any
property access throws a `TypeError`), or a value whose `typeof` is not
`'object'`. -/
inductive JSArg (α : Type) where
  | val : α → JSArg α
  | nullArg
  | nonObj
deriving DecidableEq

/-- The `submissions` argument: an array or not. -/
inductive JSSubsArg where
  | arr : List Submission → JSSubsArg
  | nonArr
deriving DecidableEq

/-- `typeof x === 'object'` — true for records and for `null`. -/
def typeofIsObject {α : Type} : JSArg α → Bool
  | .val _ => true
  | .nullArg => true
  | .nonObj => false

/-- Whether the argument is an actual structured record (what the spec calls
one); `null` is not. -/
def isStructuredRecord {α : Type} : JSArg α → Bool
  | .val _ => true
  | _ => false

/-- JS lines 8–14 plus the body: the dynamically-typed entry point.  The
`typeof`/`Array.isArray` guard raises `InvalidInputType`; a `null` course or
group passes that guard and then the property accesses of line 18 throw a
`TypeError`. -/
def getLearnerDataJS (now : Int) (c : JSArg Course) (g : JSArg AssignmentGroup)
    (subs : JSSubsArg) : Except Err (List LearnerRecord × List Submission) :=
  if typeofIsObject c = false ∨ typeofIsObject g = false ∨ subs = .nonArr then
    .error .invalidInputType
  else
    match g, c, subs with
    | .nullArg, _, _ => .error .typeError
    | _, .nullArg, _ => .error .typeError
    | .val gv, .val cv, .arr s => getLearnerData now cv gv s
    | _, _, .nonArr => .error .invalidInputType
    | .nonObj, _, _ => .error .invalidInputType
    | _, .nonObj, _ => .error .invalidInputType

/-- Lookup of a learner's output record by id in the result list. -/
def lookupRecord : List LearnerRecord → Int → Option LearnerRecord
  | [], _ => none
  | r :: rest, key => if r.id = key then some r else lookupRecord rest key

/-- The record emitted for one accumulator by the output loop (JS lines
100–106), `none` when the learner is skipped for `totalPossible == 0`. -/
def emitRecord (d : LearnerAcc) : Option LearnerRecord :=
  if d.totalPossible = 0 then none
  else some { id := d.id, avg := d.totalScore / d.totalPossible,
              scores := d.assignmentScores }

/-- Per-learner view of a call's outcome: the error, or the learner's record
(if any) in the returned list. -/
def outLookup (r : Except Err (List LearnerRecord × List Submission)) (key : Int) :
    Except Err (Option LearnerRecord) :=
  r.map fun p => lookupRecord p.1 key

/-- The submissions that trigger the `console.warn` diagnostic, in order. -/
def warnedOf (l : List Submission) : List Submission :=
  l.filter fun s => isMalformed s

/-- A well-formed submission aimed at assignment `aid`. -/
def targetsAssignment (aid : Int) (s : Submission) : Bool :=
  !(isMalformed s) && s.assignment_id == aid

/-- Well-formedness of the learner map: keys are pairwise distinct and each
accumulator's `id` equals its key.  Holds for every state the loop builds. -/
def WFstate (st : List (Int × LearnerAcc)) : Prop :=
  List.Pairwise (fun p q => p.1 ≠ q.1) st ∧ ∀ p ∈ st, (p.2).id = p.1

/-- Relation between the learner map of a run and the learner map of a run on
a sub-list of the submissions: identical everywhere, except that the second
may lack learners whose accumulator is still the untouched empty one. -/
def RelState (st st' : List (Int × LearnerAcc)) : Prop :=
  ∀ k, mapGet st' k = mapGet st k ∨ (mapGet st' k = none ∧ mapGet st k = some (emptyAcc k))

/-- Every percentage recorded in the state comes from an assignment (present
in the map) with non-zero `points_possible`. -/
def ScoresValid (amap : List (Int × Assignment)) (st : List (Int × LearnerAcc)) : Prop :=
  ∀ p ∈ st, ∀ q ∈ (p.2).assignmentScores,
    ∃ a, mapGet amap q.1 = some a ∧ a.points_possible ≠ 0

/-- The submission reaches one of the post-lookup `continue`s of JS lines
63–69: unknown assignment, not-yet-due assignment, or zero points. -/
def SkipsScoring (now : Int) (amap : List (Int × Assignment)) (s : Submission) : Prop :=
  mapGet amap s.assignment_id = none ∨
    ∃ a, mapGet amap s.assignment_id = some a ∧
      (a.due_at > now ∨ a.points_possible = 0)

end LearnerData

namespace LearnerData

-- Sanity checks of the model on small inputs.
example : effectiveScore 11 10 85 100 = 75 := by
  norm_num [effectiveScore, max_def]

example :
    processSubmissions 20 [(1, ⟨1, 10, 100⟩)] []
      [⟨7, 1, some ⟨5, 0⟩⟩, ⟨7, 1, some ⟨6, 50⟩⟩]
      = ([(7, ⟨7, 50, 200, [(1, 1/2)]⟩)], []) := by
  norm_num [processSubmissions, processSubmission, initIfAbsent, mapGet, mapSet,
    emptyAcc, updateLearner, effectiveScore, max_def]

example :
    getLearnerData 20 ⟨1⟩ ⟨1, 1, [⟨1, 10, 100⟩]⟩
      [⟨7, 1, some ⟨5, 0⟩⟩, ⟨7, 1, some ⟨6, 50⟩⟩]
      = .ok ([⟨7, 1/4, [(1, 1/2)]⟩], []) := by
  norm_num [getLearnerData, buildAssignmentMap, assembleResults,
    processSubmissions, processSubmission, initIfAbsent, mapGet, mapSet,
    emptyAcc, updateLearner, effectiveScore, max_def]

/-! ### Association-list lemmas -/

theorem mapGet_mapSet {α : Type} (m : List (Int × α)) (k : Int) (v : α) (key : Int) :
    mapGet (mapSet m k v) key = if k = key then some v else mapGet m key := by
  induction m with
  | nil => simp [mapGet, mapSet]
  | cons p rest ih =>
      obtain ⟨k', w⟩ := p
      by_cases hk : k' = k
      · subst hk
        by_cases hkey : k' = key <;> simp [mapGet, mapSet, hkey]
      · by_cases hkey : k' = key
        · subst hkey
          simp [mapGet, mapSet, hk, Ne.symm hk]
        · simp [mapGet, mapSet, hk, hkey, ih]

theorem mem_mapSet {α : Type} {k : Int} {v : α} :
    ∀ {m : List (Int × α)} {p : Int × α}, p ∈ mapSet m k v → p = (k, v) ∨ p ∈ m := by
  intro m
  induction m with
  | nil => intro p h; simpa [mapSet] using h
  | cons q rest ih =>
      intro p h
      obtain ⟨k', w⟩ := q
      by_cases hk : k' = k
      · subst hk
        rw [mapSet, if_pos rfl] at h
        rcases List.mem_cons.1 h with h | h
        · exact Or.inl h
        · exact Or.inr (List.mem_cons_of_mem _ h)
      · rw [mapSet, if_neg hk] at h
        rcases List.mem_cons.1 h with h | h
        · exact Or.inr (by simp [h])
        · rcases ih h with h' | h'
          · exact Or.inl h'
          · exact Or.inr (List.mem_cons_of_mem _ h')

theorem mapGet_mem {α : Type} {key : Int} {v : α} :
    ∀ {m : List (Int × α)}, mapGet m key = some v → (key, v) ∈ m := by
  intro m
  induction m with
  | nil => intro h; simp [mapGet] at h
  | cons p rest ih =>
      intro h
      obtain ⟨k, w⟩ := p
      by_cases hk : k = key
      · subst hk
        rw [mapGet, if_pos rfl, Option.some.injEq] at h
        simp [h]
      · rw [mapGet, if_neg hk] at h
        exact List.mem_cons_of_mem _ (ih h)

theorem pairwise_mapSet {α : Type} (k : Int) (v : α) :
    ∀ {m : List (Int × α)}, List.Pairwise (fun p q => p.1 ≠ q.1) m →
      List.Pairwise (fun p q => p.1 ≠ q.1) (mapSet m k v) := by
  intro m
  induction m with
  | nil => intro _; simp [mapSet]
  | cons p rest ih =>
      intro h
      obtain ⟨k', w⟩ := p
      rcases (List.pairwise_cons).1 h with ⟨hhead, htail⟩
      by_cases hk : k' = k
      · subst hk
        simp only [mapSet, if_pos rfl]
        exact (List.pairwise_cons).2 ⟨hhead, htail⟩
      · simp only [mapSet, if_neg hk]
        refine (List.pairwise_cons).2 ⟨?_, ih htail⟩
        intro q hq
        rcases mem_mapSet hq with rfl | hq'
        · exact hk
        · exact hhead q hq'

theorem mapGet_initIfAbsent (st : List (Int × LearnerAcc)) (lid key : Int) :
    mapGet (initIfAbsent st lid) key =
      if lid = key then some ((mapGet st lid).getD (emptyAcc lid))
      else mapGet st key := by
  unfold initIfAbsent
  cases hg : mapGet st lid with
  | none => simp [hg, mapGet_mapSet]
  | some d =>
      by_cases hk : lid = key
      · subst hk; simp [hg]
      · simp [hg, hk]

/-! ### Well-formedness of the learner map -/

theorem WFstate_nil : WFstate [] := by
  constructor <;> simp

theorem WFstate_mapSet {st : List (Int × LearnerAcc)} {k : Int} {v : LearnerAcc}
    (h : WFstate st) (hv : v.id = k) : WFstate (mapSet st k v) := by
  refine ⟨pairwise_mapSet k v h.1, ?_⟩
  intro p hp
  rcases mem_mapSet hp with rfl | hp'
  · exact hv
  · exact h.2 p hp'

theorem WFstate_initIfAbsent {st : List (Int × LearnerAcc)} (lid : Int)
    (h : WFstate st) : WFstate (initIfAbsent st lid) := by
  unfold initIfAbsent
  cases hg : mapGet st lid with
  | none => exact WFstate_mapSet h rfl
  | some d => simpa [hg] using h

theorem updateLearner_id (aid : Int) (pp score : ℚ) (learner : LearnerAcc) :
    (updateLearner aid pp score learner).id = learner.id := by
  unfold updateLearner
  split
  · rfl
  · split
    · split <;> rfl
    · rfl

theorem getD_id {st : List (Int × LearnerAcc)} (lid : Int) (h : WFstate st) :
    ((mapGet st lid).getD (emptyAcc lid)).id = lid := by
  cases hg : mapGet st lid with
  | none => simp [emptyAcc]
  | some d => simpa using h.2 (lid, d) (mapGet_mem hg)

/-! ### Equation lemmas for one loop iteration -/

theorem isMalformed_false_iff (s : Submission) :
    isMalformed s = false ↔
      s.learner_id ≠ 0 ∧ s.assignment_id ≠ 0 ∧ ∃ d, s.submission = some d := by
  cases hsub : s.submission <;>
    simp [isMalformed, hsub]

theorem step_malformed {now : Int} {amap : List (Int × Assignment)}
    {st : List (Int × LearnerAcc)} {s : Submission} (hm : isMalformed s = true) :
    processSubmission now amap st s = (st, [s]) := by
  cases hsub : s.submission with
  | none => simp [processSubmission, hsub]
  | some d =>
      have hid : s.learner_id = 0 ∨ s.assignment_id = 0 := by
        by_contra hcon
        push_neg at hcon
        have : isMalformed s = false :=
          (isMalformed_false_iff s).2 ⟨hcon.1, hcon.2, d, hsub⟩
        simp [this] at hm
      simp [processSubmission, hsub, hid]

theorem step_skip {now : Int} {amap : List (Int × Assignment)}
    {st : List (Int × LearnerAcc)} {s : Submission}
    (hm : isMalformed s = false) (hskip : SkipsScoring now amap s) :
    processSubmission now amap st s = (initIfAbsent st s.learner_id, []) := by
  obtain ⟨hl, ha, d, hsub⟩ := (isMalformed_false_iff s).1 hm
  have hid : ¬ (s.learner_id = 0 ∨ s.assignment_id = 0) := by
    push_neg; exact ⟨hl, ha⟩
  rcases hskip with hnone | ⟨a, hsome, hcase⟩
  · simp [processSubmission, hsub, hid, hnone]
  · rcases hcase with hdue | hpp
    · simp [processSubmission, hsub, hid, hsome, hdue]
    · by_cases hdue : a.due_at > now
      · simp [processSubmission, hsub, hid, hsome, hdue]
      · simp [processSubmission, hsub, hid, hsome, hdue, hpp]

theorem step_take {now : Int} {amap : List (Int × Assignment)}
    {st : List (Int × LearnerAcc)} {s : Submission} {d : SubmissionDetail}
    {a : Assignment}
    (hm : isMalformed s = false) (hsub : s.submission = some d)
    (ha : mapGet amap s.assignment_id = some a)
    (hdue : ¬ a.due_at > now) (hpp : a.points_possible ≠ 0) :
    processSubmission now amap st s =
      (mapSet (initIfAbsent st s.learner_id) s.learner_id
        (updateLearner s.assignment_id a.points_possible
          (effectiveScore d.submitted_at a.due_at d.score a.points_possible)
          ((mapGet st s.learner_id).getD (emptyAcc s.learner_id))), []) := by
  obtain ⟨hl, ha', _, _⟩ := (isMalformed_false_iff s).1 hm
  have hid : ¬ (s.learner_id = 0 ∨ s.assignment_id = 0) := by
    push_neg; exact ⟨hl, ha'⟩
  simp [processSubmission, hsub, hid, ha, hdue, hpp]

theorem WFstate_step {now : Int} {amap : List (Int × Assignment)}
    {st : List (Int × LearnerAcc)} {s : Submission} (h : WFstate st) :
    WFstate (processSubmission now amap st s).1 := by
  cases hm : isMalformed s with
  | true => rw [step_malformed hm]; exact h
  | false =>
      obtain ⟨hl, ha', d, hsub⟩ := (isMalformed_false_iff s).1 hm
      cases ha : mapGet amap s.assignment_id with
      | none =>
          rw [step_skip hm (Or.inl ha)]
          exact WFstate_initIfAbsent _ h
      | some a =>
          by_cases hdue : a.due_at > now
          · rw [step_skip hm (Or.inr ⟨a, ha, Or.inl hdue⟩)]
            exact WFstate_initIfAbsent _ h
          · by_cases hpp : a.points_possible = 0
            · rw [step_skip hm (Or.inr ⟨a, ha, Or.inr hpp⟩)]
              exact WFstate_initIfAbsent _ h
            · rw [step_take hm hsub ha hdue hpp]
              refine WFstate_mapSet (WFstate_initIfAbsent _ h) ?_
              rw [updateLearner_id]
              exact getD_id _ h

theorem WFstate_run {now : Int} {amap : List (Int × Assignment)}
    {st : List (Int × LearnerAcc)} (l : List Submission) (h : WFstate st) :
    WFstate (processSubmissions now amap st l).1 := by
  induction l generalizing st with
  | nil => simpa [processSubmissions] using h
  | cons s rest ih =>
      simpa [processSubmissions] using ih (WFstate_step h)

/-- Exhaustive classification of one loop iteration: the submission is warned
as malformed, skipped after the learner-record initialization, or scored. -/
theorem step_trichotomy (now : Int) (amap : List (Int × Assignment)) (s : Submission) :
    isMalformed s = true ∨
      (isMalformed s = false ∧ SkipsScoring now amap s) ∨
      (isMalformed s = false ∧ ∃ d a, s.submission = some d ∧
        mapGet amap s.assignment_id = some a ∧ ¬ a.due_at > now ∧
        a.points_possible ≠ 0) := by
  cases hm : isMalformed s with
  | true => exact Or.inl rfl
  | false =>
      obtain ⟨_, _, d, hsub⟩ := (isMalformed_false_iff s).1 hm
      cases ha : mapGet amap s.assignment_id with
      | none => exact Or.inr (Or.inl ⟨rfl, Or.inl ha⟩)
      | some a =>
          by_cases hdue : a.due_at > now
          · exact Or.inr (Or.inl ⟨rfl, Or.inr ⟨a, ha, Or.inl hdue⟩⟩)
          · by_cases hpp : a.points_possible = 0
            · exact Or.inr (Or.inl ⟨rfl, Or.inr ⟨a, ha, Or.inr hpp⟩⟩)
            · exact Or.inr (Or.inr ⟨rfl, d, a, hsub, rfl, hdue, hpp⟩)

theorem step_warnings (now : Int) (amap : List (Int × Assignment))
    (st : List (Int × LearnerAcc)) (s : Submission) :
    (processSubmission now amap st s).2 = if isMalformed s then [s] else [] := by
  rcases step_trichotomy now amap s with hm | ⟨hm, hskip⟩ | ⟨hm, d, a, hsub, ha, hdue, hpp⟩
  · rw [step_malformed hm]; simp [hm]
  · rw [step_skip hm hskip]; simp [hm]
  · rw [step_take hm hsub ha hdue hpp]; simp [hm]

theorem run_warnings (now : Int) (amap : List (Int × Assignment)) :
    ∀ (l : List Submission) (st : List (Int × LearnerAcc)),
      (processSubmissions now amap st l).2 = warnedOf l := by
  intro l
  induction l with
  | nil => intro st; simp [processSubmissions, warnedOf]
  | cons s rest ih =>
      intro st
      cases hm : isMalformed s <;>
        simp [processSubmissions, step_warnings, warnedOf, hm, ih]

theorem run_append (now : Int) (amap : List (Int × Assignment)) :
    ∀ (l1 l2 : List Submission) (st : List (Int × LearnerAcc)),
      processSubmissions now amap st (l1 ++ l2) =
        ((processSubmissions now amap (processSubmissions now amap st l1).1 l2).1,
          (processSubmissions now amap st l1).2 ++
            (processSubmissions now amap (processSubmissions now amap st l1).1 l2).2) := by
  intro l1
  induction l1 with
  | nil => intro l2 st; simp [processSubmissions]
  | cons s rest ih =>
      intro l2 st
      simp [processSubmissions, ih]

/-! ### Output assembly -/

theorem lookupRecord_assemble_notin {key : Int} :
    ∀ {st : List (Int × LearnerAcc)}, (∀ p ∈ st, (p.2).id = p.1) →
      (∀ p ∈ st, p.1 ≠ key) → lookupRecord (assembleResults st) key = none := by
  intro st
  induction st with
  | nil => intro _ _; simp [assembleResults, lookupRecord]
  | cons p rest ih =>
      intro hid hnot
      obtain ⟨k, d⟩ := p
      have hd : d.id = k := hid (k, d) (by simp)
      have hk : k ≠ key := hnot (k, d) (by simp)
      by_cases htp : d.totalPossible = 0
      · rw [assembleResults, if_pos htp]
        exact ih (fun q hq => hid q (List.mem_cons_of_mem _ hq))
          (fun q hq => hnot q (List.mem_cons_of_mem _ hq))
      · rw [assembleResults, if_neg htp, lookupRecord, if_neg (by simpa [hd] using hk)]
        exact ih (fun q hq => hid q (List.mem_cons_of_mem _ hq))
          (fun q hq => hnot q (List.mem_cons_of_mem _ hq))

theorem lookupRecord_assemble {key : Int} :
    ∀ {st : List (Int × LearnerAcc)}, WFstate st →
      lookupRecord (assembleResults st) key = (mapGet st key).bind emitRecord := by
  intro st
  induction st with
  | nil => intro _; simp [assembleResults, lookupRecord, mapGet]
  | cons p rest ih =>
      intro hWF
      obtain ⟨k, d⟩ := p
      rcases hWF with ⟨hpw, hid⟩
      rcases (List.pairwise_cons).1 hpw with ⟨hhead, htail⟩
      have hd : d.id = k := hid (k, d) (by simp)
      have hWFrest : WFstate rest :=
        ⟨htail, fun q hq => hid q (List.mem_cons_of_mem _ hq)⟩
      by_cases hk : k = key
      · subst hk
        rw [mapGet, if_pos rfl]
        by_cases htp : d.totalPossible = 0
        · rw [assembleResults, if_pos htp,
            lookupRecord_assemble_notin hWFrest.2 (fun q hq => Ne.symm (hhead q hq))]
          simp [emitRecord, htp]
        · rw [assembleResults, if_neg htp, lookupRecord, if_pos hd]
          simp [emitRecord, htp]
      · rw [mapGet, if_neg hk]
        by_cases htp : d.totalPossible = 0
        · rw [assembleResults, if_pos htp, ih hWFrest]
        · rw [assembleResults, if_neg htp, lookupRecord,
            if_neg (by simpa [hd] using hk), ih hWFrest]

theorem lookupRecord_none_mem {key : Int} :
    ∀ {l : List LearnerRecord}, lookupRecord l key = none →
      ∀ r ∈ l, r.id ≠ key := by
  intro l
  induction l with
  | nil => intro _ r hr; simp at hr
  | cons r0 rest ih =>
      intro h r hr
      by_cases h0 : r0.id = key
      · rw [lookupRecord, if_pos h0] at h
        exact absurd h (by simp)
      · rw [lookupRecord, if_neg h0] at h
        rcases List.mem_cons.1 hr with rfl | hr'
        · exact h0
        · exact ih h r hr'

/-! ### Runs on sub-lists of the submissions -/

theorem RelState_refl (st : List (Int × LearnerAcc)) : RelState st st :=
  fun _ => Or.inl rfl

theorem RelState_getD {st st' : List (Int × LearnerAcc)} (h : RelState st st')
    (lid : Int) :
    (mapGet st' lid).getD (emptyAcc lid) = (mapGet st lid).getD (emptyAcc lid) := by
  rcases h lid with e | ⟨h1, h2⟩
  · rw [e]
  · rw [h1, h2]; rfl

theorem RelState_initIfAbsent_left {st st' : List (Int × LearnerAcc)}
    (h : RelState st st') (lid : Int) : RelState (initIfAbsent st lid) st' := by
  intro k
  rw [mapGet_initIfAbsent]
  by_cases hk : lid = k
  · subst hk
    rcases h lid with e | ⟨h1, h2⟩
    · rw [if_pos rfl, e]
      cases hg : mapGet st lid with
      | none => exact Or.inr ⟨rfl, rfl⟩
      | some v => exact Or.inl rfl
    · rw [if_pos rfl, h2]
      exact Or.inr ⟨h1, rfl⟩
  · rw [if_neg hk]
    exact h k

theorem RelState_initIfAbsent_both {st st' : List (Int × LearnerAcc)}
    (h : RelState st st') (lid : Int) :
    RelState (initIfAbsent st lid) (initIfAbsent st' lid) := by
  intro k
  rw [mapGet_initIfAbsent, mapGet_initIfAbsent]
  by_cases hk : lid = k
  · subst hk
    rw [if_pos rfl, if_pos rfl, RelState_getD h]
    exact Or.inl rfl
  · rw [if_neg hk, if_neg hk]
    exact h k

theorem RelState_step {now : Int} {amap : List (Int × Assignment)}
    {st st' : List (Int × LearnerAcc)} (h : RelState st st') (s : Submission) :
    RelState (processSubmission now amap st s).1
      (processSubmission now amap st' s).1 := by
  rcases step_trichotomy now amap s with hm | ⟨hm, hskip⟩ | ⟨hm, d, a, hsub, ha, hdue, hpp⟩
  · rw [step_malformed hm, step_malformed hm]
    exact h
  · rw [step_skip hm hskip, step_skip hm hskip]
    exact RelState_initIfAbsent_both h _
  · rw [step_take hm hsub ha hdue hpp, step_take hm hsub ha hdue hpp]
    intro k
    rw [mapGet_mapSet, mapGet_mapSet]
    by_cases hk : s.learner_id = k
    · rw [if_pos hk, if_pos hk, RelState_getD h]
      exact Or.inl rfl
    · rw [if_neg hk, if_neg hk, mapGet_initIfAbsent, mapGet_initIfAbsent,
        if_neg hk, if_neg hk]
      exact h k

theorem RelState_run {now : Int} {amap : List (Int × Assignment)}
    (l : List Submission) :
    ∀ {st st' : List (Int × LearnerAcc)}, RelState st st' →
      RelState (processSubmissions now amap st l).1
        (processSubmissions now amap st' l).1 := by
  induction l with
  | nil => intro st st' h; simpa [processSubmissions] using h
  | cons s rest ih =>
      intro st st' h
      simpa [processSubmissions] using ih (RelState_step h s)

theorem RelState_assemble_lookup {st st' : List (Int × LearnerAcc)}
    (hWF : WFstate st) (hWF' : WFstate st') (h : RelState st st') (key : Int) :
    lookupRecord (assembleResults st) key = lookupRecord (assembleResults st') key := by
  rw [lookupRecord_assemble hWF, lookupRecord_assemble hWF']
  rcases h key with e | ⟨h1, h2⟩
  · rw [e]
  · rw [h1, h2]
    simp [emitRecord, emptyAcc]

theorem mem_assemble {r : LearnerRecord} :
    ∀ {st : List (Int × LearnerAcc)}, r ∈ assembleResults st →
      ∃ p, p ∈ st ∧ (p.2).totalPossible ≠ 0 ∧
        r = { id := (p.2).id, avg := (p.2).totalScore / (p.2).totalPossible,
              scores := (p.2).assignmentScores } := by
  intro st
  induction st with
  | nil => intro h; simp [assembleResults] at h
  | cons p rest ih =>
      intro h
      obtain ⟨k, d⟩ := p
      by_cases htp : d.totalPossible = 0
      · rw [assembleResults, if_pos htp] at h
        obtain ⟨q, hq, h1, h2⟩ := ih h
        exact ⟨q, List.mem_cons_of_mem _ hq, h1, h2⟩
      · rw [assembleResults, if_neg htp] at h
        rcases List.mem_cons.1 h with rfl | h'
        · exact ⟨(k, d), by simp, htp, rfl⟩
        · obtain ⟨q, hq, h1, h2⟩ := ih h'
          exact ⟨q, List.mem_cons_of_mem _ hq, h1, h2⟩

/-! ### The recorded-percentage invariant -/

theorem updateLearner_scores_mem {aid : Int} {pp score : ℚ} {learner : LearnerAcc}
    {q : Int × ℚ} (h : q ∈ (updateLearner aid pp score learner).assignmentScores) :
    q = (aid, score / pp) ∨ q ∈ learner.assignmentScores := by
  unfold updateLearner at h
  split at h
  · exact mem_mapSet h
  · split at h
    · split at h
      · exact mem_mapSet h
      · exact mem_mapSet h
    · exact Or.inr h

theorem ScoresValid_initIfAbsent {amap : List (Int × Assignment)}
    {st : List (Int × LearnerAcc)} (h : ScoresValid amap st) (lid : Int) :
    ScoresValid amap (initIfAbsent st lid) := by
  unfold initIfAbsent
  cases hg : (mapGet st lid).isNone with
  | false => simpa using h
  | true =>
      rw [if_pos rfl]
      intro p hp q hq
      rcases mem_mapSet hp with rfl | hp'
      · simp [emptyAcc] at hq
      · exact h p hp' q hq

theorem ScoresValid_step {now : Int} {amap : List (Int × Assignment)}
    {st : List (Int × LearnerAcc)} {s : Submission} (h : ScoresValid amap st) :
    ScoresValid amap (processSubmission now amap st s).1 := by
  rcases step_trichotomy now amap s with hm | ⟨hm, hskip⟩ | ⟨hm, d, a, hsub, ha, hdue, hpp⟩
  · rw [step_malformed hm]; exact h
  · rw [step_skip hm hskip]; exact ScoresValid_initIfAbsent h _
  · rw [step_take hm hsub ha hdue hpp]
    intro p hp q hq
    rcases mem_mapSet hp with rfl | hp'
    · rcases updateLearner_scores_mem hq with rfl | hq'
      · exact ⟨a, ha, hpp⟩
      · cases hg : mapGet st s.learner_id with
        | none => rw [hg] at hq'; simp [emptyAcc] at hq'
        | some dd =>
            rw [hg] at hq'
            exact h (s.learner_id, dd) (mapGet_mem hg) q hq'
    · exact ScoresValid_initIfAbsent h s.learner_id p hp' q hq

theorem ScoresValid_run {now : Int} {amap : List (Int × Assignment)}
    (l : List Submission) :
    ∀ {st : List (Int × LearnerAcc)}, ScoresValid amap st →
      ScoresValid amap (processSubmissions now amap st l).1 := by
  induction l with
  | nil => intro st h; simpa [processSubmissions] using h
  | cons s rest ih =>
      intro st h
      simpa [processSubmissions] using ih (ScoresValid_step h)

/-! ### Filtering the submissions of one assignment or one submission out -/

theorem targetsAssignment_true_iff (aid : Int) (s : Submission) :
    targetsAssignment aid s = true ↔
      isMalformed s = false ∧ s.assignment_id = aid := by
  simp [targetsAssignment]

theorem run_filter_zero_points {now : Int} {amap : List (Int × Assignment)}
    {aid : Int} {a : Assignment}
    (ha : mapGet amap aid = some a) (hpp : a.points_possible = 0)
    (l : List Submission) :
    ∀ {st st' : List (Int × LearnerAcc)}, RelState st st' →
      RelState (processSubmissions now amap st l).1
        (processSubmissions now amap st'
          (l.filter fun s => !(targetsAssignment aid s))).1 := by
  induction l with
  | nil => intro st st' h; simpa [processSubmissions] using h
  | cons s rest ih =>
      intro st st' h
      cases ht : targetsAssignment aid s with
      | true =>
          rcases (targetsAssignment_true_iff aid s).1 ht with ⟨hm, haid⟩
          have hskip : SkipsScoring now amap s :=
            Or.inr ⟨a, by rw [haid]; exact ha, Or.inr hpp⟩
          have hstep : processSubmission now amap st s =
              (initIfAbsent st s.learner_id, []) := step_skip hm hskip
          simp only [List.filter_cons, ht, Bool.not_true, processSubmissions, hstep]
          exact ih (RelState_initIfAbsent_left h s.learner_id)
      | false =>
          simp only [List.filter_cons, ht, Bool.not_false, processSubmissions]
          exact ih (RelState_step h s)

theorem run_append_state (now : Int) (amap : List (Int × Assignment))
    (l1 l2 : List Submission) (st : List (Int × LearnerAcc)) :
    (processSubmissions now amap st (l1 ++ l2)).1 =
      (processSubmissions now amap (processSubmissions now amap st l1).1 l2).1 := by
  rw [run_append]

theorem run_removed_skip {now : Int} {amap : List (Int × Assignment)}
    {s : Submission} (hm : isMalformed s = false) (hskip : SkipsScoring now amap s)
    (pre post : List Submission) :
    RelState (processSubmissions now amap [] (pre ++ s :: post)).1
      (processSubmissions now amap [] (pre ++ post)).1 := by
  rw [run_append_state, run_append_state]
  have hstep : processSubmission now amap (processSubmissions now amap [] pre).1 s =
      (initIfAbsent (processSubmissions now amap [] pre).1 s.learner_id, []) :=
    step_skip hm hskip
  simp only [processSubmissions, hstep]
  exact RelState_run post
    (RelState_initIfAbsent_left (RelState_refl _) s.learner_id)

/-! ### Top-level characterizations -/

theorem getLearnerData_ok {now : Int} {c : Course} {g : AssignmentGroup}
    {amap : List (Int × Assignment)} (subs : List Submission)
    (hc : g.course_id = c.id)
    (hb : buildAssignmentMap g.assignments [] = .ok amap) :
    getLearnerData now c g subs =
      .ok (assembleResults (processSubmissions now amap [] subs).1,
           (processSubmissions now amap [] subs).2) := by
  simp [getLearnerData, hc, hb]

theorem buildAssignmentMap_error :
    ∀ (l : List Assignment) (m : List (Int × Assignment)) (e : Err),
      buildAssignmentMap l m = .error e → ∃ i, e = .invalidAssignment i := by
  intro l
  induction l with
  | nil => intro m e h; simp [buildAssignmentMap] at h
  | cons a rest ih =>
      intro m e h
      by_cases hpp : a.points_possible < 0
      · rw [buildAssignmentMap, if_pos hpp] at h
        exact ⟨a.id, by injection h with h'; rw [h']⟩
      · rw [buildAssignmentMap, if_neg hpp] at h
        exact ih _ e h

theorem getLearnerData_ne_invalidInputType (now : Int) (c : Course)
    (g : AssignmentGroup) (subs : List Submission) :
    getLearnerData now c g subs ≠ .error .invalidInputType := by
  unfold getLearnerData
  by_cases hc : g.course_id ≠ c.id
  · rw [if_pos hc]
    intro h
    injection h with h'
    exact absurd h' (by intro h''; cases h'')
  · rw [if_neg hc]
    cases hb : buildAssignmentMap g.assignments [] with
    | error e =>
        obtain ⟨i, rfl⟩ := buildAssignmentMap_error _ _ _ hb
        intro h
        injection h with h'
        exact absurd h' (by intro h''; cases h'')
    | ok amap =>
        intro h
        cases h

/-! ### Claim theorems -/

/-- C3: a submission strictly after the due date is scored as
`max 0 (rawScore - 0.1 * points_possible)`, hence never negative; a
submission on time or exactly at the due date keeps its raw score with no
penalty. -/
theorem c3_late_penalty (submittedAt dueAt : Int) (rawScore pointsPossible : ℚ) :
    (submittedAt > dueAt →
      effectiveScore submittedAt dueAt rawScore pointsPossible
          = max 0 (rawScore - (1 / 10) * pointsPossible) ∧
        0 ≤ effectiveScore submittedAt dueAt rawScore pointsPossible) ∧
      (¬ submittedAt > dueAt →
        effectiveScore submittedAt dueAt rawScore pointsPossible = rawScore) := by
  constructor
  · intro h
    rw [effectiveScore, if_pos h]
    exact ⟨rfl, le_max_left 0 _⟩
  · intro h
    rw [effectiveScore, if_neg h]

/-- Witness for C3 at concrete inputs: a one-day-late 85/100 submission is
scored 75, an on-time one keeps 85. -/
theorem c3_late_penalty_witness :
    (effectiveScore 11 10 85 100 = max 0 (85 - (1 / 10) * 100) ∧
      (0 : ℚ) ≤ effectiveScore 11 10 85 100) ∧
      effectiveScore 9 10 85 100 = 85 :=
  ⟨(c3_late_penalty 11 10 85 100).1 (by decide),
    (c3_late_penalty 9 10 85 100).2 (by decide)⟩

/-- C7: whenever `assignmentGroup.course_id` differs from `course.id`, the
call fails with the group-mismatch error before any submission is processed
and returns no result. -/
theorem c7_group_mismatch (now : Int) (c : Course) (g : AssignmentGroup)
    (subs : List Submission) (h : g.course_id ≠ c.id) :
    getLearnerData now c g subs = .error .groupMismatch := by
  rw [getLearnerData, if_pos h]

/-- Witness for C7: course id 1 against a group tied to course 2. -/
theorem c7_group_mismatch_witness :
    getLearnerData 0 ⟨1⟩ ⟨1, 2, []⟩ [] = .error .groupMismatch :=
  c7_group_mismatch 0 ⟨1⟩ ⟨1, 2, []⟩ [] (by decide)

/-- C6: a malformed submission anywhere in the list is warned about and
skipped; the call does not fail because of it, and the rest of the list is
processed exactly as if the malformed element were absent. -/
theorem c6_malformed_skipped (now : Int) (c : Course) (g : AssignmentGroup)
    (pre post : List Submission) (s : Submission) (hm : isMalformed s = true) :
    getLearnerData now c g (pre ++ s :: post) =
      (getLearnerData now c g (pre ++ post)).map
        (fun r => (r.1, warnedOf pre ++ s :: warnedOf post)) := by
  by_cases hc : g.course_id = c.id
  · cases hb : buildAssignmentMap g.assignments [] with
    | error e => simp [getLearnerData, hc, hb, Except.map]
    | ok amap =>
        rw [getLearnerData_ok (pre ++ s :: post) hc hb,
          getLearnerData_ok (pre ++ post) hc hb]
        have hstate : (processSubmissions now amap [] (pre ++ s :: post)).1
            = (processSubmissions now amap [] (pre ++ post)).1 := by
          rw [run_append_state, run_append_state]
          have hstep : processSubmission now amap
              (processSubmissions now amap [] pre).1 s
              = ((processSubmissions now amap [] pre).1, [s]) := step_malformed hm
          simp only [processSubmissions, hstep]
        have hwarn : (processSubmissions now amap [] (pre ++ s :: post)).2
            = warnedOf pre ++ s :: warnedOf post := by
          rw [run_warnings]
          simp [warnedOf, List.filter_append, List.filter_cons, hm]
        simp only [Except.map]
        rw [hstate, hwarn]
  · have h' : g.course_id ≠ c.id := hc
    rw [getLearnerData, if_pos h', getLearnerData, if_pos h']
    rfl

/-- Witness for C6: a submission with learner id 0 (falsy) between two good
ones is warned and dropped; the output matches the run without it. -/
theorem c6_malformed_skipped_witness :
    getLearnerData 20 ⟨1⟩ ⟨1, 1, [⟨1, 10, 100⟩]⟩
        ([⟨7, 1, some ⟨5, 80⟩⟩] ++ ⟨0, 1, some ⟨5, 60⟩⟩ :: [⟨8, 1, some ⟨5, 50⟩⟩]) =
      (getLearnerData 20 ⟨1⟩ ⟨1, 1, [⟨1, 10, 100⟩]⟩
          ([⟨7, 1, some ⟨5, 80⟩⟩] ++ [⟨8, 1, some ⟨5, 50⟩⟩])).map
        (fun r => (r.1, warnedOf [⟨7, 1, some ⟨5, 80⟩⟩] ++ ⟨0, 1, some ⟨5, 60⟩⟩ ::
          warnedOf [⟨8, 1, some ⟨5, 50⟩⟩])) :=
  c6_malformed_skipped 20 ⟨1⟩ ⟨1, 1, [⟨1, 10, 100⟩]⟩
    [⟨7, 1, some ⟨5, 80⟩⟩] [⟨8, 1, some ⟨5, 50⟩⟩] ⟨0, 1, some ⟨5, 60⟩⟩ (by decide)

/-- C8 counterexample: `null` is not a structured record, yet passing it as
the assignment group does not raise `InvalidInputType` — `typeof null` is
`'object'`, so the guard passes and the later property access throws a
`TypeError` instead. -/
theorem c8_null_counterexample :
    isStructuredRecord (JSArg.nullArg : JSArg AssignmentGroup) = false ∧
      getLearnerDataJS 0 (JSArg.val ⟨1⟩) JSArg.nullArg (JSSubsArg.arr [])
        = .error .typeError ∧
      Err.typeError ≠ Err.invalidInputType := by
  refine ⟨rfl, rfl, ?_⟩
  intro h
  cases h

/-- C8 (amended): the call fails with `InvalidInputType` exactly when
`typeof course` or `typeof assignmentGroup` is not `'object'`, or the
submissions argument is not an array; for all other inputs — including the
`null` course/group, whose `typeof` is `'object'` — this error is not
raised. -/
theorem c8_invalid_input_type_iff (now : Int) (c : JSArg Course)
    (g : JSArg AssignmentGroup) (subs : JSSubsArg) :
    getLearnerDataJS now c g subs = .error .invalidInputType ↔
      (typeofIsObject c = false ∨ typeofIsObject g = false ∨ subs = .nonArr) := by
  constructor
  · intro h
    by_cases hcond : typeofIsObject c = false ∨ typeofIsObject g = false ∨
      subs = .nonArr
    · exact hcond
    · exfalso
      rw [getLearnerDataJS.eq_def, if_neg hcond] at h
      push_neg at hcond
      obtain ⟨hc, hg, hs⟩ := hcond
      rcases subs with sl | _
      · rcases g with gv | _ | _
        · rcases c with cv | _ | _
          · exact getLearnerData_ne_invalidInputType now cv gv sl h
          · injection h with h'; cases h'
          · exact hc rfl
        · rcases c with cv | _ | _
          · injection h with h'; cases h'
          · injection h with h'; cases h'
          · exact hc rfl
        · exact hg rfl
      · exact hs rfl
  · intro h
    rw [getLearnerDataJS.eq_def, if_pos h]

/-- C1 (failing input): two submissions for the same learner/assignment pair
— scores 0 then 50 on a single 100-point assignment, both passing every skip
check — leave `totalPossible = 200`: the assignment's points are counted
twice, because the stored percentage 0 is falsy at JS line 87 and the old
contribution is never subtracted.  The claim requires exactly one
submission's points (100) in the totals. -/
theorem c1_double_count_bug :
    processSubmissions 20 [(1, ⟨1, 10, 100⟩)] []
        [⟨7, 1, some ⟨5, 0⟩⟩, ⟨7, 1, some ⟨6, 50⟩⟩]
      = ([(7, ⟨7, 50, 200, [(1, 1/2)]⟩)], []) ∧ (200 : ℚ) ≠ 100 := by
  constructor
  · norm_num [processSubmissions, processSubmission, initIfAbsent, mapGet, mapSet,
      emptyAcc, updateLearner, effectiveScore, max_def]
  · norm_num

/-- C2 (failing input): on the same two-submission input the emitted average
is `50/200 = 1/4`, while the independent recomputation — best penalty-applied
score 50 over the assignment's 100 points, counted once — gives `1/2`. -/
theorem c2_avg_mismatch_bug :
    getLearnerData 20 ⟨1⟩ ⟨1, 1, [⟨1, 10, 100⟩]⟩
        [⟨7, 1, some ⟨5, 0⟩⟩, ⟨7, 1, some ⟨6, 50⟩⟩]
      = .ok ([⟨7, 1/4, [(1, 1/2)]⟩], []) ∧ (50 : ℚ) / 100 ≠ 1 / 4 := by
  constructor
  · norm_num [getLearnerData, buildAssignmentMap, assembleResults,
      processSubmissions, processSubmission, initIfAbsent, mapGet, mapSet,
      emptyAcc, updateLearner, effectiveScore, max_def]
  · norm_num

/-- C4 (failing input): the learner already has stored percentage 0 and
totals (0, 100) for assignment 1; a further submission with percentage
`0/100 = 0 ≤ 0` should leave everything unchanged, but the code bumps
`totalPossible` to 200 (stored 0 is falsy, so the take-branch runs without
subtracting the old contribution). -/
theorem c4_totals_changed_bug :
    processSubmission 20 [(1, ⟨1, 10, 100⟩)] [(7, ⟨7, 0, 100, [(1, 0)]⟩)]
        ⟨7, 1, some ⟨5, 0⟩⟩
      = ([(7, ⟨7, 0, 200, [(1, 0)]⟩)], []) ∧ (0 : ℚ) / 100 ≤ 0 := by
  constructor
  · norm_num [processSubmission, initIfAbsent, mapGet, mapSet,
      emptyAcc, updateLearner, effectiveScore, max_def]
  · norm_num

/-- C5: an assignment with `points_possible = 0` never appears among any
output record's percentages, and removing all well-formed submissions aimed
at it leaves every learner's output record unchanged — it contributes
nothing to `avg`, `totalScore` or `totalPossible`.  Moreover every recorded
percentage comes from an assignment with non-zero `points_possible`, so the
`score / points_possible` division is never performed with a zero divisor. -/
theorem c5_zero_points_excluded (now : Int) (c : Course) (g : AssignmentGroup)
    (subs : List Submission) (amap : List (Int × Assignment)) (aid : Int)
    (a : Assignment) (hc : g.course_id = c.id)
    (hb : buildAssignmentMap g.assignments [] = .ok amap)
    (ha : mapGet amap aid = some a) (hpp : a.points_possible = 0) :
    (∀ res ws, getLearnerData now c g subs = .ok (res, ws) →
        ∀ r ∈ res, mapGet r.scores aid = none) ∧
      (∀ key, outLookup (getLearnerData now c g subs) key =
        outLookup (getLearnerData now c g
          (subs.filter fun s => !(targetsAssignment aid s))) key) ∧
      ScoresValid amap (processSubmissions now amap [] subs).1 := by
  refine ⟨?_, ?_, ScoresValid_run subs (fun q hq => absurd hq (by simp))⟩
  · intro res ws hok r hr
    rw [getLearnerData_ok subs hc hb] at hok
    injection hok with h'
    rw [Prod.mk.injEq] at h'
    obtain ⟨h1, _⟩ := h'
    subst h1
    obtain ⟨p, hp, _, rfl⟩ := mem_assemble hr
    have hSV : ScoresValid amap (processSubmissions now amap [] subs).1 :=
      ScoresValid_run subs (fun q hq => absurd hq (by simp))
    cases hget : mapGet (p.2).assignmentScores aid with
    | none => rfl
    | some x =>
        obtain ⟨a', ha', hpp'⟩ := hSV p hp (aid, x) (mapGet_mem hget)
        rw [ha] at ha'
        injection ha' with ha''
        exact absurd (by rw [ha''] at hpp; exact hpp) hpp'
  · intro key
    rw [getLearnerData_ok subs hc hb,
      getLearnerData_ok (subs.filter fun s => !(targetsAssignment aid s)) hc hb]
    simp only [outLookup, Except.map]
    exact congrArg _ (RelState_assemble_lookup (WFstate_run _ WFstate_nil)
      (WFstate_run _ WFstate_nil)
      (run_filter_zero_points ha hpp subs (RelState_refl [])) key)

/-- Witness for C5: a 0-point assignment due in the past; the learner's
output is the same with and without the submission aimed at it. -/
theorem c5_zero_points_excluded_witness :
    outLookup (getLearnerData 20 ⟨1⟩ ⟨1, 1, [⟨1, 10, 0⟩]⟩ [⟨7, 1, some ⟨5, 0⟩⟩]) 7 =
      outLookup (getLearnerData 20 ⟨1⟩ ⟨1, 1, [⟨1, 10, 0⟩]⟩
        ([⟨7, 1, some ⟨5, 0⟩⟩].filter fun s => !(targetsAssignment 1 s))) 7 :=
  (c5_zero_points_excluded 20 ⟨1⟩ ⟨1, 1, [⟨1, 10, 0⟩]⟩ [⟨7, 1, some ⟨5, 0⟩⟩]
    [(1, ⟨1, 10, 0⟩)] 1 ⟨1, 10, 0⟩ rfl
    (by norm_num [buildAssignmentMap, mapSet]) rfl rfl).2.1 7

/-- C9: a submission for an assignment whose due date is strictly after the
wall-clock instant captured at the start of the call contributes nothing:
every learner's output record is the same as if the submission were absent.
And a learner whose accumulator still has `totalPossible = 0` (all
submissions skipped) appears nowhere in the output list. -/
theorem c9_future_due_skipped (now : Int) (c : Course) (g : AssignmentGroup)
    (pre post : List Submission) (s : Submission)
    (amap : List (Int × Assignment)) (a : Assignment)
    (hc : g.course_id = c.id)
    (hb : buildAssignmentMap g.assignments [] = .ok amap)
    (hm : isMalformed s = false)
    (ha : mapGet amap s.assignment_id = some a)
    (hfut : a.due_at > now) :
    (∀ key, outLookup (getLearnerData now c g (pre ++ s :: post)) key =
        outLookup (getLearnerData now c g (pre ++ post)) key) ∧
      (∀ subs res ws lid d, getLearnerData now c g subs = .ok (res, ws) →
        mapGet (processSubmissions now amap [] subs).1 lid = some d →
        d.totalPossible = 0 → ∀ r ∈ res, r.id ≠ lid) := by
  constructor
  · intro key
    rw [getLearnerData_ok (pre ++ s :: post) hc hb,
      getLearnerData_ok (pre ++ post) hc hb]
    simp only [outLookup, Except.map]
    exact congrArg _ (RelState_assemble_lookup (WFstate_run _ WFstate_nil)
      (WFstate_run _ WFstate_nil)
      (run_removed_skip hm (Or.inr ⟨a, ha, Or.inl hfut⟩) pre post) key)
  · intro subs res ws lid d hok hget htp r hr
    rw [getLearnerData_ok subs hc hb] at hok
    injection hok with h'
    rw [Prod.mk.injEq] at h'
    obtain ⟨h1, _⟩ := h'
    subst h1
    have hlook : lookupRecord
        (assembleResults (processSubmissions now amap [] subs).1) lid = none := by
      rw [lookupRecord_assemble (WFstate_run _ WFstate_nil), hget]
      simp [emitRecord, htp]
    exact lookupRecord_none_mem hlook r hr

/-- Witness for C9: an assignment due at time 10 with the clock at 5; the
learner's only submission is skipped and the learner is absent from the
output. -/
theorem c9_future_due_skipped_witness :
    outLookup (getLearnerData 5 ⟨1⟩ ⟨1, 1, [⟨1, 10, 100⟩]⟩
        ([] ++ ⟨7, 1, some ⟨3, 80⟩⟩ :: [])) 7 =
      outLookup (getLearnerData 5 ⟨1⟩ ⟨1, 1, [⟨1, 10, 100⟩]⟩ ([] ++ [])) 7 :=
  (c9_future_due_skipped 5 ⟨1⟩ ⟨1, 1, [⟨1, 10, 100⟩]⟩ [] [] ⟨7, 1, some ⟨3, 80⟩⟩
    [(1, ⟨1, 10, 100⟩)] ⟨1, 10, 100⟩ rfl
    (by norm_num [buildAssignmentMap, mapSet]) (by decide) rfl (by decide)).1 7

end LearnerData
